import Mathlib

/-!
Verification of the watchless periodic-command viewer (src/watchless.py).

The development shallowly embeds the parts of `WatchLess` that the
specification's claims are about:

* the per-cell diff stamping performed in `WatchLess.run` (lines 507-556),
* the scroll-bound arithmetic of `WatchLess.calculate_sizes` (309-329),
* the unclamped key handling of `WatchLess.handle_keys` (331-396) and the
  clamp applied at redraw time in `WatchLess.run` (587-596),
* the scheduling arithmetic of `WatchLess.process_command` (256-307),
* the output gathering of `WatchLess.process_command` (290-292),
* the end-of-run bookkeeping in `WatchLess.run` (558-584), and
* the process exit paths (233-237, 559-566, 601-608).

Curses cells (`chtype` values) are modelled as natural numbers: the low
8 bits hold the character, higher bits hold the display attributes, as
the source comments on `pad.inch` describe.  Python's arbitrary-precision
integers map to `Nat`/`Int`; `temp & 0xFF` is written `temp % 256` and
`temp & ~0xFF` (clearing the low 8 bits of a nonnegative value) is
written `temp / 256 * 256`.
-/

namespace Watchless

/-- curses.A_NORMAL. -/
def A_NORMAL : Nat := 0

/-- curses.A_STANDOUT: bit 16 of a chtype in ncurses. -/
def A_STANDOUT : Nat := 65536

/-- A curses pad, as a row-major grid of packed chtype cells. -/
abbrev Canvas := List (List Nat)

/-- The packed cell stored at `(r, x)`, if that position exists. -/
def cellAt (pad : Canvas) (r x : Nat) : Option Nat :=
  (pad.get? r).bind fun row => row.get? x

/-- pad.inch(r, x): the packed chtype at `(r, x)`; a cleared (blank) cell
reads as a space (32) with `A_NORMAL` attributes. -/
def inch (pad : Canvas) (r x : Nat) : Nat :=
  (cellAt pad r x).getD 32

/-- One iteration of the character loop in `WatchLess.run` (lines 526-549):
given the previous cell `temp = self.pad.inch(cur_l, x)` and the incoming
character code `ch`, compute the packed cell that `newpad.addch` stores.
`temp / 256 * 256` is the source's `temp & ~0xFF`; `temp % 256` is
`temp & 0xFF`; `addch(c, attr)` stores `c ||| attr`. -/
def stampChar (c_diff : Bool) (temp ch : Nat) : Nat :=
  let attr := if c_diff then temp / 256 * 256 else A_NORMAL
  let oldc := temp % 256
  let attr2 := if ch ≠ oldc then attr ||| A_STANDOUT else attr
  ch ||| attr2

/-- The inner `for x, c in enumerate(line)` loop of `WatchLess.run`:
diff-stamp the characters of one line against row `r` of the previous
pad, starting at column `x0`. -/
def diffChars (c_diff : Bool) (pad : Canvas) (r x0 : Nat) : List Nat → List Nat
  | [] => []
  | ch :: rest => stampChar c_diff (inch pad r x0) ch :: diffChars c_diff pad r (x0 + 1) rest

/-- The `for line in output` loop of `WatchLess.run` (lines 513-556) for one
run's collected lines: with `differences` enabled and not on the first run,
each line is stamped character by character against the previous pad;
otherwise `addstr` writes the characters with the default `A_NORMAL`
attribute.  `cur_l` is the row counter incremented once per line. -/
def processLines (differences c_diff first_run : Bool) (pad : Canvas) (cur_l : Nat) :
    List (List Nat) → Canvas
  | [] => []
  | line :: rest =>
    (if differences && !first_run then diffChars c_diff pad cur_l 0 line
     else line.map fun ch => ch ||| A_NORMAL)
    :: processLines differences c_diff first_run pad (cur_l + 1) rest

/-- A cell carries the highlight: its `A_STANDOUT` bit (bit 16) is set. -/
def hasHighlight (v : Nat) : Bool := v.testBit 16

/-- Every character code of the lines is a single byte. -/
def bytesOnly (lines : List (List Nat)) : Bool :=
  lines.all fun line => line.all fun ch => ch < 256

/-- A well-formed chtype cell: a byte character plus at most the standout
bit, i.e. `v = s + q * 65536` with `s < 256` and `q < 2`. -/
def wfCell (v : Nat) : Bool := decide (v % 65536 < 256) && decide (v / 65536 < 2)

/-- All cells of a canvas are well formed. -/
def wfCanvas (pad : Canvas) : Bool :=
  pad.all fun row => row.all wfCell

/-- Two canvases have identical dimensions (same rows, same row lengths). -/
def sameShape : Canvas → Canvas → Bool
  | [], [] => true
  | r1 :: t1, r2 :: t2 => (r1.length == r2.length) && sameShape t1 t2
  | _, _ => false

/- Arithmetic facts about packed cells, checked over the finite byte range. -/

set_option maxRecDepth 2048 in
lemma byte_lor_standout : ∀ ch < 256, ch ||| 65536 = ch + 65536 := by decide

set_option maxRecDepth 2048 in
lemma byte_testBit16 : ∀ ch < 256, Nat.testBit ch 16 = false := by decide

set_option maxRecDepth 2048 in
lemma byte_add_testBit16 : ∀ ch < 256, Nat.testBit (ch + 65536) 16 = true := by decide

/-- Closed form of `stampChar` on a well-formed previous cell
`temp = s + q * 65536` and a byte character `ch`: the character part is
kept and the standout bit is set exactly when cumulative mode carries an
existing highlight or the character changed. -/
lemma stampChar_eq (c_diff : Bool) (s q ch : Nat)
    (hs : s < 256) (hq : q < 2) (hch : ch < 256) :
    stampChar c_diff (s + q * 65536) ch =
      ch + (if (c_diff && (q == 1)) || !(ch == s) then 65536 else 0) := by
  have hmod : (s + q * 65536) % 256 = s := by omega
  have hdiv : (s + q * 65536) / 256 * 256 = q * 65536 := by omega
  simp only [stampChar, hmod, hdiv, A_NORMAL, A_STANDOUT]
  interval_cases q <;> rcases c_diff with _ | _ <;> by_cases h : ch = s <;>
    simp [h, Nat.zero_or, Nat.or_zero, Nat.or_self,
      byte_lor_standout ch hch, byte_lor_standout s hs]

/- Positional characterisation of the diff loops. -/

lemma diffChars_get? (c_diff : Bool) (pad : Canvas) (r : Nat) :
    ∀ (line : List Nat) (x0 x : Nat),
      (diffChars c_diff pad r x0 line).get? x
        = (line.get? x).map fun ch => stampChar c_diff (inch pad r (x0 + x)) ch := by
  intro line
  induction line with
  | nil => intro x0 x; simp [diffChars]
  | cons ch rest ih =>
    intro x0 x
    cases x with
    | zero => simp [diffChars]
    | succ n =>
      have := ih (x0 + 1) n
      simp only [diffChars, List.get?_cons_succ, this]
      have harith : x0 + 1 + n = x0 + (n + 1) := by omega
      rw [harith]

lemma processLines_get? (differences c_diff first_run : Bool) (pad : Canvas) :
    ∀ (lines : List (List Nat)) (l0 r : Nat),
      (processLines differences c_diff first_run pad l0 lines).get? r
        = (lines.get? r).map fun line =>
            if differences && !first_run then diffChars c_diff pad (l0 + r) 0 line
            else line.map fun ch => ch ||| A_NORMAL := by
  intro lines
  induction lines with
  | nil => intro l0 r; simp [processLines]
  | cons line rest ih =>
    intro l0 r
    cases r with
    | zero => simp [processLines]
    | succ n =>
      have := ih (l0 + 1) n
      simp only [processLines, List.get?_cons_succ, this]
      have harith : l0 + 1 + n = l0 + (n + 1) := by omega
      rw [harith]

/-- Pointwise description of one run's pad contents: the cell written at
`(r, x)` is the stamped (diff) or plainly written (addstr) character. -/
lemma cellAt_processLines (differences c_diff first_run : Bool) (pad : Canvas)
    (lines : List (List Nat)) (r x : Nat) :
    cellAt (processLines differences c_diff first_run pad 0 lines) r x
      = (cellAt lines r x).map fun ch =>
          if differences && !first_run then stampChar c_diff (inch pad r x) ch
          else ch ||| A_NORMAL := by
  unfold cellAt
  rw [processLines_get?]
  cases hrow : lines.get? r with
  | none => simp
  | some line =>
    cases hcond : differences && !first_run with
    | true =>
      simp only [hcond, if_true, Option.map_some', Option.some_bind,
        diffChars_get?, Nat.zero_add, Option.map_map]
    | false =>
      simp [hcond, List.get?_map]

/-- A stored cell belongs to some row of the canvas. -/
lemma cellAt_mem {pad : Canvas} {r x v : Nat} (hc : cellAt pad r x = some v) :
    ∃ row ∈ pad, v ∈ row := by
  unfold cellAt at hc
  cases hrow : pad.get? r with
  | none => rw [hrow] at hc; simp at hc
  | some row =>
    rw [hrow] at hc
    simp only [Option.some_bind] at hc
    exact ⟨row, List.get?_mem hrow, List.get?_mem hc⟩

lemma wfCanvas_cellAt {pad : Canvas} (h : wfCanvas pad = true) {r x v : Nat}
    (hc : cellAt pad r x = some v) : v % 65536 < 256 ∧ v / 65536 < 2 := by
  obtain ⟨row, hrow, hv⟩ := cellAt_mem hc
  have h1 := (List.all_eq_true.mp h) row hrow
  have h2 := (List.all_eq_true.mp h1) v hv
  unfold wfCell at h2
  simp only [Bool.and_eq_true, decide_eq_true_eq] at h2
  exact h2

lemma bytesOnly_cellAt {lines : List (List Nat)} (h : bytesOnly lines = true)
    {r x ch : Nat} (hc : cellAt lines r x = some ch) : ch < 256 := by
  obtain ⟨row, hrow, hv⟩ := cellAt_mem hc
  have h1 := (List.all_eq_true.mp h) row hrow
  have h2 := (List.all_eq_true.mp h1) ch hv
  simpa using h2

lemma diffChars_length (c_diff : Bool) (pad : Canvas) (r : Nat) :
    ∀ (line : List Nat) (x0 : Nat), (diffChars c_diff pad r x0 line).length = line.length := by
  intro line
  induction line with
  | nil => intro x0; rfl
  | cons ch rest ih => intro x0; simp [diffChars, ih]

/-- One run's output pad has exactly the dimensions of the collected lines. -/
lemma sameShape_processLines (differences c_diff first_run : Bool) (pad : Canvas) :
    ∀ (lines : List (List Nat)) (l0 : Nat),
      sameShape lines (processLines differences c_diff first_run pad l0 lines) = true := by
  intro lines
  induction lines with
  | nil => intro l0; rfl
  | cons line rest ih =>
    intro l0
    simp only [processLines, sameShape]
    rw [Bool.and_eq_true]
    refine ⟨?_, ih (l0 + 1)⟩
    cases hcond : differences && !first_run <;> simp [hcond, diffChars_length]

/-- The highlight bit of a stamped byte character reads back the stamping
condition. -/
lemma hasHighlight_stamped (ch : Nat) (hch : ch < 256) (b : Bool) :
    hasHighlight (ch + if b then 65536 else 0) = b := by
  cases b <;>
    simp [hasHighlight, byte_testBit16 ch hch, byte_add_testBit16 ch hch]

/-- `stampChar` on any well-formed previous cell, with the carried bit and
the old character read off the cell itself. -/
lemma stampChar_wf (c_diff : Bool) {temp ch : Nat}
    (h1 : temp % 65536 < 256) (h2 : temp / 65536 < 2) (hch : ch < 256) :
    stampChar c_diff temp ch
      = ch + if (c_diff && (temp / 65536 == 1)) || !(ch == temp % 256) then 65536 else 0 := by
  have hm : temp % 256 = temp % 65536 := by omega
  have hsplit : temp % 65536 + temp / 65536 * 65536 = temp := by omega
  rw [hm, ← hsplit]
  have hq : (temp % 65536 + temp / 65536 * 65536) / 65536 = temp / 65536 := by omega
  rw [hq, hsplit]
  calc stampChar c_diff temp ch
      = stampChar c_diff (temp % 65536 + temp / 65536 * 65536) ch := by rw [hsplit]
    _ = _ := stampChar_eq c_diff (temp % 65536) (temp / 65536) ch h1 h2 hch

/-- A diff-mode (non-first) run writes exactly the stamped cell wherever
both the incoming line and the previous pad have the position. -/
lemma cellAt_diffStep (c_diff : Bool) (prev : Canvas) (lines : List (List Nat))
    {r x ch temp : Nat}
    (hline : cellAt lines r x = some ch) (hprev : cellAt prev r x = some temp) :
    cellAt (processLines true c_diff false prev 0 lines) r x
      = some (stampChar c_diff temp ch) := by
  have hcell := cellAt_processLines true c_diff false prev lines r x
  rw [hline] at hcell
  have hinch : inch prev r x = temp := by unfold inch; rw [hprev]; rfl
  simpa [hinch] using hcell

/-- A first run writes the raw characters with `A_NORMAL` attributes. -/
lemma cellAt_firstRun (differences c_diff : Bool) (pad : Canvas)
    (lines : List (List Nat)) {r x ch : Nat} (hline : cellAt lines r x = some ch) :
    cellAt (processLines differences c_diff true pad 0 lines) r x = some ch := by
  have hcell := cellAt_processLines differences c_diff true pad lines r x
  rw [hline] at hcell
  simpa [A_NORMAL] using hcell

/-- Claim C2: with canvases of equal dimensions, sequential diff mode
highlights exactly the positions whose characters differ from the previous
displayed canvas (and the output canvas has no cells beyond those of the
incoming lines); and across three runs in cumulative mode, a cell is
highlighted after run 3 exactly when it changed between runs 1 and 2 or
between runs 2 and 3. -/
theorem diff_modes_roundtrip :
    (∀ (differences c_diff first_run : Bool) (pad : Canvas)
        (lines : List (List Nat)) (l0 : Nat),
        sameShape lines (processLines differences c_diff first_run pad l0 lines) = true)
    ∧
    (∀ (prev : Canvas) (lines : List (List Nat)),
        wfCanvas prev = true → bytesOnly lines = true → sameShape prev lines = true →
        ∀ r x ch temp, cellAt lines r x = some ch → cellAt prev r x = some temp →
          ∃ v, cellAt (processLines true false false prev 0 lines) r x = some v ∧
            (hasHighlight v = true ↔ ch ≠ temp % 256))
    ∧
    (∀ (lines1 lines2 lines3 : List (List Nat)),
        bytesOnly lines1 = true → bytesOnly lines2 = true → bytesOnly lines3 = true →
        ∀ r x ch1 ch2 ch3,
          cellAt lines1 r x = some ch1 → cellAt lines2 r x = some ch2 →
          cellAt lines3 r x = some ch3 →
          ∃ v,
            cellAt (processLines true true false
                (processLines true true false
                  (processLines true true true [] 0 lines1) 0 lines2) 0 lines3) r x
              = some v ∧
            (hasHighlight v = true ↔ (ch1 ≠ ch2 ∨ ch2 ≠ ch3))) := by
  refine ⟨fun d cd fr pad lines l0 => sameShape_processLines d cd fr pad lines l0, ?_, ?_⟩
  · -- sequential mode
    intro prev lines hwf hb _hs r x ch temp hcl hcp
    have hch : ch < 256 := bytesOnly_cellAt hb hcl
    obtain ⟨h1, h2⟩ := wfCanvas_cellAt hwf hcp
    refine ⟨stampChar false temp ch, cellAt_diffStep false prev lines hcl hcp, ?_⟩
    rw [stampChar_wf false h1 h2 hch]
    simp only [Bool.false_and, Bool.false_or]
    rw [hasHighlight_stamped ch hch]
    simp [Ne]
  · -- cumulative mode across three runs
    intro l1 l2 l3 hb1 hb2 hb3 r x ch1 ch2 ch3 hc1 hc2 hc3
    have h1 : ch1 < 256 := bytesOnly_cellAt hb1 hc1
    have h2 : ch2 < 256 := bytesOnly_cellAt hb2 hc2
    have h3 : ch3 < 256 := bytesOnly_cellAt hb3 hc3
    have e1 : cellAt (processLines true true true [] 0 l1) r x = some ch1 :=
      cellAt_firstRun true true [] l1 hc1
    have e2 := cellAt_diffStep true (processLines true true true [] 0 l1) l2 hc2 e1
    rw [stampChar_wf true (by omega) (by omega) h2] at e2
    have hq1 : ch1 / 65536 = 0 := by omega
    have hm1 : ch1 % 256 = ch1 := by omega
    rw [hq1, hm1] at e2
    by_cases h12 : ch2 = ch1
    · have e2' : cellAt (processLines true true false
          (processLines true true true [] 0 l1) 0 l2) r x = some ch2 := by
        simpa [h12] using e2
      have e3 := cellAt_diffStep true _ l3 hc3 e2'
      rw [stampChar_wf true (by omega) (by omega) h3] at e3
      have hqa : ch2 / 65536 = 0 := by omega
      have hma : ch2 % 256 = ch2 := by omega
      rw [hqa, hma] at e3
      refine ⟨_, e3, ?_⟩
      rw [hasHighlight_stamped ch3 h3]
      subst h12
      simp only [show ((0 : Nat) == 1) = false from rfl, Bool.and_false, Bool.false_or,
        Bool.not_eq_true', beq_eq_false_iff_ne]
      constructor
      · intro h
        exact Or.inr fun he => h he.symm
      · rintro (h | h)
        · exact absurd rfl h
        · exact fun he => h he.symm
    · have e2' : cellAt (processLines true true false
          (processLines true true true [] 0 l1) 0 l2) r x = some (ch2 + 65536) := by
        simpa [h12] using e2
      have e3 := cellAt_diffStep true _ l3 hc3 e2'
      rw [stampChar_wf true (by omega) (by omega) h3] at e3
      have hqa : (ch2 + 65536) / 65536 = 1 := by omega
      have hma : (ch2 + 65536) % 256 = ch2 := by omega
      rw [hqa, hma] at e3
      refine ⟨_, e3, ?_⟩
      rw [hasHighlight_stamped ch3 h3]
      simp only [show ((1 : Nat) == 1) = true from rfl, Bool.and_true, Bool.true_or]
      simp only [true_iff]
      exact Or.inl fun he => h12 he.symm

/-- Witness for C2: a previous canvas `AB` against new line `BB` highlights
exactly the first column in sequential mode; three cumulative runs
`A`, `B`, `B` leave the changed cell highlighted after the third run. -/
theorem diff_modes_roundtrip_witness :
    (∃ v, cellAt (processLines true false false [[65, 66]] 0 [[66, 66]]) 0 0 = some v ∧
        (hasHighlight v = true ↔ (66 : Nat) ≠ 65 % 256))
    ∧
    (∃ v,
        cellAt (processLines true true false
            (processLines true true false
              (processLines true true true [] 0 [[65]]) 0 [[66]]) 0 [[66]]) 0 0
          = some v ∧
        (hasHighlight v = true ↔ ((65 : Nat) ≠ 66 ∨ (66 : Nat) ≠ 66))) :=
  ⟨diff_modes_roundtrip.2.1 [[65, 66]] [[66, 66]] (by decide) (by decide) (by decide)
      0 0 66 65 (by decide) (by decide),
   diff_modes_roundtrip.2.2 [[65]] [[66]] [[66]] (by decide) (by decide) (by decide)
      0 0 65 66 66 (by decide) (by decide) (by decide)⟩

/-- Claim C7: the very first run of the command produces zero highlighted
cells in the displayed canvas, for every diff mode setting. -/
theorem first_run_no_highlight (differences c_diff : Bool) (pad : Canvas)
    (lines : List (List Nat)) (hb : bytesOnly lines = true) :
    ∀ r x v, cellAt (processLines differences c_diff true pad 0 lines) r x = some v →
      hasHighlight v = false := by
  intro r x v hc
  have hcell := cellAt_processLines differences c_diff true pad lines r x
  rw [hc] at hcell
  cases hline : cellAt lines r x with
  | none => rw [hline] at hcell; simp at hcell
  | some ch =>
    rw [hline] at hcell
    have hch : ch < 256 := bytesOnly_cellAt hb hline
    have hv : v = ch := by
      have := hcell
      simpa [A_NORMAL, eq_comm] using this
    rw [hv]
    exact byte_testBit16 ch hch

/-- Witness for C7: a concrete first run with two lines of output has no
highlighted cell at position (0, 0). -/
theorem first_run_no_highlight_witness :
    hasHighlight 104 = false :=
  first_run_no_highlight true true [] [[104, 105], [33]] (by decide) 0 0 104 (by decide)

/-! ### Viewport state, `calculate_sizes`, `handle_keys` and the redraw clamp -/

/-- The instance variables of `WatchLess` involved in scrolling: the
viewport offset, the stored scroll bounds, page/screen dimensions, the
content dimensions and the header offset `content_y`. -/
structure WL where
  x : Int
  y : Int
  right : Int
  bottom : Int
  page_width : Int
  page_height : Int
  screen_width : Int
  screen_height : Int
  content_width : Int
  content_height : Int
  content_y : Int
  dirty : Bool
deriving DecidableEq

/-- `WatchLess.calculate_sizes` (lines 309-329), with the terminal size
reported by `screen.getmaxyx()` passed in as `(screenh, screenw)`. -/
def calculate_sizes (screenh screenw : Int) (s : WL) : WL :=
  let screen_height := screenh - 1
  let screen_width := screenw - 1
  let page_height := screen_height - s.content_y
  let page_width := screen_width
  { s with
    screen_height := screen_height
    screen_width := screen_width
    page_height := page_height
    page_width := page_width
    right := s.content_width - page_width
    bottom := s.content_height - page_height }

/-- The key events `WatchLess.handle_keys` reacts to.  `other` covers both
`getch()` returning -1 (no key pending) and any unrecognised key, which
leave the state unchanged. -/
inductive Key where
  | up
  | down
  | npage
  | ppage
  | left
  | right
  | keyEnd
  | home
  | ctrlLeft
  | ctrlRight
  | resize (screenh screenw : Int)
  | other
deriving DecidableEq

/-- `WatchLess.handle_keys` (lines 331-396) for one pending key: offsets
are mutated with no bounds check; a resize recomputes the sizes.  The
curses screen refresh and header update are display-only effects. -/
def handle_keys (s : WL) (k : Key) : WL :=
  match k with
  | .up => { s with y := s.y - 1, dirty := true }
  | .down => { s with y := s.y + 1, dirty := true }
  | .npage => { s with y := s.y + s.page_height, dirty := true }
  | .ppage => { s with y := s.y - s.page_height, dirty := true }
  | .left => { s with x := s.x - 1, dirty := true }
  | .right => { s with x := s.x + 1, dirty := true }
  | .keyEnd => { s with y := s.bottom, dirty := true }
  | .home => { s with y := 0, dirty := true }
  | .ctrlLeft => { s with x := s.x - s.page_width, dirty := true }
  | .ctrlRight => { s with x := s.x + s.page_width, dirty := true }
  | .resize screenh screenw => { calculate_sizes screenh screenw s with dirty := true }
  | .other => s

/-- The clamp applied at redraw time in `WatchLess.run` (lines 587-596):
`y = max(min(y, bottom), 0)`, `x = max(min(x, right), 0)`, after which the
screen is refreshed and the dirty flag cleared. -/
def clamp_redraw (s : WL) : WL :=
  { s with
    y := max (min s.y s.bottom) 0
    x := max (min s.x s.right) 0
    dirty := false }

/-- The consistency the code maintains between the stored bounds and the
content/page sizes: `right` and `bottom` always hold the (unfloored)
differences computed by the last `calculate_sizes` call. -/
abbrev Inv (s : WL) : Prop :=
  s.right = s.content_width - s.page_width ∧
  s.bottom = s.content_height - s.page_height

lemma inv_calculate_sizes (screenh screenw : Int) (s : WL) :
    Inv (calculate_sizes screenh screenw s) := by
  constructor <;> rfl

lemma inv_handle_keys (s : WL) (k : Key) (h : Inv s) : Inv (handle_keys s k) := by
  cases k with
  | resize screenh screenw =>
    obtain ⟨h1, h2⟩ := inv_calculate_sizes screenh screenw s
    exact ⟨h1, h2⟩
  | _ => exact h

lemma inv_foldl (keys : List Key) (s : WL) (h : Inv s) :
    Inv (List.foldl handle_keys s keys) := by
  induction keys generalizing s with
  | nil => exact h
  | cons k rest ih => exact ih (handle_keys s k) (inv_handle_keys s k h)

/-- Claim C1: whatever sequence of navigation keys is applied through
`handle_keys` (whose mutations of x and y are unclamped), the clamp
performed at redraw time leaves the offsets inside
`[0, max(content_width - page_width, 0)] × [0, max(content_height - page_height, 0)]`. -/
theorem nav_clamp_bounds (s0 : WL) (keys : List Key) (h : Inv s0) :
    let s1 := clamp_redraw (List.foldl handle_keys s0 keys)
    0 ≤ s1.x ∧ s1.x ≤ max (s1.content_width - s1.page_width) 0 ∧
    0 ≤ s1.y ∧ s1.y ≤ max (s1.content_height - s1.page_height) 0 := by
  intro s1
  obtain ⟨hr, hb⟩ := inv_foldl keys s0 h
  have hx : s1.x = max (min (List.foldl handle_keys s0 keys).x
      (List.foldl handle_keys s0 keys).right) 0 := rfl
  have hy : s1.y = max (min (List.foldl handle_keys s0 keys).y
      (List.foldl handle_keys s0 keys).bottom) 0 := rfl
  have hcw : s1.content_width = (List.foldl handle_keys s0 keys).content_width := rfl
  have hch' : s1.content_height = (List.foldl handle_keys s0 keys).content_height := rfl
  have hpw : s1.page_width = (List.foldl handle_keys s0 keys).page_width := rfl
  have hph : s1.page_height = (List.foldl handle_keys s0 keys).page_height := rfl
  rw [hx, hy, hcw, hch', hpw, hph]
  omega

/-- A concrete `WatchLess` scroll state whose stored bounds are consistent
with its content and page sizes. -/
def demoWL : WL :=
  { x := 3, y := -2, right := 0, bottom := 0, page_width := 0, page_height := 0,
    screen_width := 0, screen_height := 0, content_width := 0, content_height := 0,
    content_y := 2, dirty := false }

/-- Witness for C1: from `demoWL`, scrolling down, paging right and
resizing to a 5x7 terminal, the clamped offsets satisfy the bounds. -/
theorem nav_clamp_bounds_witness :
    Inv demoWL ∧
    (let s1 := clamp_redraw (List.foldl handle_keys demoWL
        [Key.down, Key.ctrlRight, Key.resize 5 7, Key.up]);
     0 ≤ s1.x ∧ s1.x ≤ max (s1.content_width - s1.page_width) 0 ∧
     0 ≤ s1.y ∧ s1.y ≤ max (s1.content_height - s1.page_height) 0) :=
  ⟨by decide,
   nav_clamp_bounds demoWL [Key.down, Key.ctrlRight, Key.resize 5 7, Key.up] (by decide)⟩

/-- Counterexample to claim C3: on a 24x80 terminal with empty content,
`calculate_sizes` stores `right = 0 - 79 = -79` and `bottom = -21`; the
stored bounds are negative, not floored at 0 as the claim states. -/
theorem calculate_sizes_not_floored :
    (calculate_sizes 24 80 demoWL).right = -79 ∧
    (calculate_sizes 24 80 demoWL).bottom = -21 ∧
    ¬((calculate_sizes 24 80 demoWL).right
        = max ((calculate_sizes 24 80 demoWL).content_width
            - (calculate_sizes 24 80 demoWL).page_width) 0) := by
  decide

/-- Claim C3 as amended: after every `calculate_sizes` call the stored
bounds equal the plain differences `content_width - page_width` and
`content_height - page_height`, with no flooring (they can be negative);
the floor to 0 is only applied to the offsets by the redraw clamp. -/
theorem calculate_sizes_bounds_unfloored (screenh screenw : Int) (s : WL) :
    (calculate_sizes screenh screenw s).right
      = (calculate_sizes screenh screenw s).content_width
        - (calculate_sizes screenh screenw s).page_width ∧
    (calculate_sizes screenh screenw s).bottom
      = (calculate_sizes screenh screenw s).content_height
        - (calculate_sizes screenh screenw s).page_height :=
  inv_calculate_sizes screenh screenw s

/-! ### Canvas width growth while accumulating a run's output -/

/-- Lines 518-521 of `WatchLess.run`: after appending one line, the width
tracker is `len(line)` if the line is longer than the current width, and
is otherwise left unchanged. -/
def stepWidth (new_w : Nat) (line : List Nat) : Nat :=
  if line.length > new_w then line.length else new_w

/-- The width after processing one polled output chunk line by line. -/
def chunkWidth (new_w : Nat) (output : List (List Nat)) : Nat :=
  output.foldl stepWidth new_w

/-- The height after processing one polled output chunk (line 509):
`new_h += len(output)`. -/
def chunkHeight (new_h : Nat) (output : List (List Nat)) : Nat :=
  new_h + output.length

lemma stepWidth_le (new_w : Nat) (line : List Nat) :
    new_w ≤ stepWidth new_w line ∧ line.length ≤ stepWidth new_w line := by
  unfold stepWidth; split <;> omega

lemma chunkWidth_mono : ∀ (output : List (List Nat)) (new_w : Nat),
    new_w ≤ chunkWidth new_w output := by
  intro output
  induction output with
  | nil => intro new_w; exact Nat.le_refl new_w
  | cons line rest ih =>
    intro new_w
    calc new_w ≤ stepWidth new_w line := (stepWidth_le new_w line).1
      _ ≤ chunkWidth (stepWidth new_w line) rest := ih (stepWidth new_w line)

/-- Counterexample to claim C4: with the width tracker at 10, a line of
length 11 grows the width to exactly 11 — `new_w = len(line)` — not to at
least double (20). -/
theorem width_growth_not_doubling :
    stepWidth 10 (List.replicate 11 97) = 11 ∧
    ¬(2 * 10 ≤ stepWidth 10 (List.replicate 11 97)) := by
  decide

/-- Claim C4 as amended: when an incoming line is longer than the current
canvas width, the width is set to exactly the line's length (never less
than needed); across a chunk the width never shrinks and ends at least as
wide as every line. -/
theorem width_growth_exact :
    (∀ (new_w : Nat) (line : List Nat),
        line.length > new_w → stepWidth new_w line = line.length)
    ∧ (∀ (new_w : Nat) (output : List (List Nat)), new_w ≤ chunkWidth new_w output)
    ∧ (∀ (new_w : Nat) (output : List (List Nat)) (line : List Nat),
        line ∈ output → line.length ≤ chunkWidth new_w output) := by
  refine ⟨?_, fun new_w output => chunkWidth_mono output new_w, ?_⟩
  · intro new_w line h
    unfold stepWidth
    rw [if_pos h]
  · intro new_w output
    induction output generalizing new_w with
    | nil => intro line h; simp at h
    | cons first rest ih =>
      intro line h
      rcases List.mem_cons.mp h with rfl | hmem
      · calc line.length ≤ stepWidth new_w line := (stepWidth_le new_w line).2
          _ ≤ chunkWidth (stepWidth new_w line) rest := chunkWidth_mono rest _
      · exact ih (stepWidth new_w first) line hmem

/-- Witness for the amended C4: width 3 with a 4-character line grows to
exactly 4, and the chunk fold never drops below the starting width nor
below any line length. -/
theorem width_growth_exact_witness :
    stepWidth 3 [97, 98, 99, 100] = [97, 98, 99, 100].length ∧
    3 ≤ chunkWidth 3 [[97], [97, 98, 99, 100]] ∧
    [97, 98, 99, 100].length ≤ chunkWidth 3 [[97], [97, 98, 99, 100]] :=
  ⟨width_growth_exact.1 3 [97, 98, 99, 100] (by decide),
   width_growth_exact.2.1 3 [[97], [97, 98, 99, 100]],
   width_growth_exact.2.2 3 [[97], [97, 98, 99, 100]] [97, 98, 99, 100] (by decide)⟩

/-! ### Scheduling: the timing arithmetic of `process_command` -/

/-- The scheduling fields of `WatchLess`: whether `self._process` is a live
process, and `self.next_run` (a time, or `None` before the first run). -/
structure SchedState where
  running : Bool
  next_run : Option Int
deriving DecidableEq

/-- Python's `self.next_run or t` (line 281): `next_run` unless it is
`None` — or the falsy time `0.0`, in which case `t` is used instead. -/
def pyOr (nr : Option Int) (t : Int) : Int :=
  match nr with
  | none => t
  | some v => if v = 0 then t else v

/-- Line 272: `self.next_run is None or t >= self.next_run`. -/
def dueToRun (nr : Option Int) (t : Int) : Bool :=
  match nr with
  | none => true
  | some v => decide (t ≥ v)

/-- `WatchLess.process_command` (lines 256-307), restricted to its control
and timing behaviour.  `t` is the clock value during the call; `exited` is
what `Popen.poll` reports for a live process (`none` while it runs, the
return code once it exited).  Result: the new state, the returned
`rcode`, and whether a new process was spawned during this call (the
`Popen` call at line 274). -/
def process_command (precise_mode : Bool) (interval : Int) (s : SchedState)
    (t : Int) (exited : Option Int) : SchedState × Option Int × Bool :=
  if s.running = false then
    if dueToRun s.next_run t then
      ({ running := true,
         next_run := if precise_mode then some (pyOr s.next_run t + interval)
                     else s.next_run },
       none, true)
    else (s, none, false)
  else
    match exited with
    | none => (s, none, false)
    | some rcode =>
      ({ running := false,
         next_run := if precise_mode then s.next_run else some (t + interval) },
       some rcode, false)

/-- Claim C5: in gap mode the next run time is set at completion to the
finish time plus the interval (and only then); in precise mode it is set
at start to the previously scheduled time plus the interval (to the
current time plus the interval on the first run) and left untouched at
completion; a spawn only ever happens while no process is running; and an
idle state whose scheduled time has already passed spawns immediately at
the next poll. -/
theorem timing_policy (interval : Int) (s : SchedState) (t : Int)
    (exited : Option Int) :
    (∀ rc, s.running = true → exited = some rc →
        (process_command false interval s t exited).1.next_run = some (t + interval))
    ∧ (∀ rc, s.running = true → exited = some rc →
        (process_command true interval s t exited).1.next_run = s.next_run)
    ∧ (s.running = false → s.next_run = none →
        process_command true interval s t exited
          = ({ running := true, next_run := some (t + interval) }, none, true))
    ∧ (∀ v, s.running = false → s.next_run = some v → 0 < v → v ≤ t →
        process_command true interval s t exited
          = ({ running := true, next_run := some (v + interval) }, none, true))
    ∧ (∀ precise_mode,
        (process_command precise_mode interval s t exited).2.2 = true →
        s.running = false)
    ∧ (∀ precise_mode v, s.running = false → s.next_run = some v → v ≤ t →
        (process_command precise_mode interval s t exited).2.2 = true) := by
  refine ⟨?_, ?_, ?_, ?_, ?_, ?_⟩
  · intro rc hrun hex
    simp [process_command, hrun, hex]
  · intro rc hrun hex
    simp [process_command, hrun, hex]
  · intro hrun hnr
    simp [process_command, hrun, hnr, dueToRun, pyOr]
  · intro v hrun hnr hpos hle
    have hdue : dueToRun s.next_run t = true := by
      rw [hnr]; simp [dueToRun]; omega
    have hv : pyOr s.next_run t = v := by
      rw [hnr]; simp [pyOr]; omega
    simp [process_command, hrun, hdue, hv]
  · intro precise_mode hspawn
    cases hrun : s.running with
    | false => rfl
    | true =>
      exfalso
      rw [process_command.eq_def, hrun] at hspawn
      simp at hspawn
      cases exited <;> simp at hspawn
  · intro precise_mode v hrun hnr hle
    have hdue : dueToRun s.next_run t = true := by
      rw [hnr]; simp [dueToRun]; omega
    simp [process_command, hrun, hdue]

/-- Witness for C5: concrete polls — a gap-mode finish at time 7 with
interval 2 schedules time 9; a precise-mode first spawn at time 7
schedules 9; a precise-mode spawn of a run scheduled at 5 schedules 7;
and an overdue idle state spawns. -/
theorem timing_policy_witness :
    (process_command false 2 { running := true, next_run := some 5 } 7
        (some 0)).1.next_run = some (7 + 2) ∧
    process_command true 2 { running := false, next_run := none } 7 none
      = ({ running := true, next_run := some (7 + 2) }, none, true) ∧
    process_command true 2 { running := false, next_run := some 5 } 7 none
      = ({ running := true, next_run := some (5 + 2) }, none, true) ∧
    (process_command false 2 { running := false, next_run := some 5 } 7 none).2.2
      = true :=
  ⟨(timing_policy 2 { running := true, next_run := some 5 } 7 (some 0)).1 0
      rfl rfl,
   (timing_policy 2 { running := false, next_run := none } 7 none).2.2.1
      rfl rfl,
   (timing_policy 2 { running := false, next_run := some 5 } 7 none).2.2.2.1 5
      rfl rfl (by decide) (by decide),
   (timing_policy 2 { running := false, next_run := some 5 } 7 none).2.2.2.2.2
      false 5 rfl rfl (by decide)⟩

/-! ### Gathering the child's output (lines 290-292) -/

/-- One line sitting in one of the child's pipes, tagged with the stream it
came from and the time it arrived there. -/
structure OutLine where
  err : Bool
  arrival : Int
deriving DecidableEq

/-- Lines 290-292 of `process_command`: `output = stdout.readlines()`
followed by `output.extend(stderr.readlines())` — everything pending on
standard output, then everything pending on standard error. -/
def gatherOutput (stdoutPending stderrPending : List OutLine) : List OutLine :=
  stdoutPending ++ stderrPending

/-- The lines appear in chronological arrival order. -/
def arrivalSorted : List OutLine → Bool
  | [] => true
  | [_] => true
  | a :: b :: rest => decide (a.arrival ≤ b.arrival) && arrivalSorted (b :: rest)

/-- Counterexample to claim C6: with one standard error line that arrived
at time 1 and one standard output line that arrived at time 2 — each pipe
individually in arrival order — the gathered output is `[stdout, stderr]`,
which is not arrival order: the error line is appended after the later
output line, not interleaved by arrival. -/
theorem gather_not_arrival_order :
    arrivalSorted [⟨false, 2⟩] = true ∧
    arrivalSorted [⟨true, 1⟩] = true ∧
    arrivalSorted (gatherOutput [⟨false, 2⟩] [⟨true, 1⟩]) = false := by
  decide

/-- Claim C6 as amended: each poll returns all pending standard output
lines, in order, followed wholesale by all pending standard error lines,
in order: the two streams keep their internal order but errors are
appended after outputs within the poll, not interleaved by arrival. -/
theorem gather_wholesale_append (o e : List OutLine)
    (ho : o.all (fun l => !l.err) = true) (he : e.all (fun l => l.err) = true) :
    (gatherOutput o e).filter (fun l => !l.err) = o ∧
    (gatherOutput o e).filter (fun l => l.err) = e ∧
    List.Pairwise (fun a b => a.err = true → b.err = true) (gatherOutput o e) := by
  have ho' : ∀ l ∈ o, l.err = false := by
    intro l hl
    have := (List.all_eq_true.mp ho) l hl
    simpa using this
  have he' : ∀ l ∈ e, l.err = true := by
    intro l hl
    have := (List.all_eq_true.mp he) l hl
    simpa using this
  refine ⟨?_, ?_, ?_⟩
  · unfold gatherOutput
    rw [List.filter_append]
    have h1 : o.filter (fun l => !l.err) = o :=
      List.filter_eq_self.mpr (by intro a ha; simp [ho' a ha])
    have h2 : e.filter (fun l => !l.err) = [] :=
      List.filter_eq_nil_iff.mpr (by intro a ha; simp [he' a ha])
    rw [h1, h2, List.append_nil]
  · unfold gatherOutput
    rw [List.filter_append]
    have h1 : o.filter (fun l => l.err) = [] :=
      List.filter_eq_nil_iff.mpr (by intro a ha; simp [ho' a ha])
    have h2 : e.filter (fun l => l.err) = e :=
      List.filter_eq_self.mpr (by intro a ha; simp [he' a ha])
    rw [h1, h2, List.nil_append]
  · unfold gatherOutput
    rw [List.pairwise_append]
    refine ⟨?_, ?_, ?_⟩
    · exact List.pairwise_of_forall_mem_list fun a ha b _ hb =>
        absurd (ho' a ha) (by simp [hb])
    · exact List.pairwise_of_forall_mem_list fun a _ b hb _ => he' b hb
    · intro a _ b hb _
      exact he' b hb

/-- Witness for the amended C6: a concrete poll with one line in each pipe. -/
theorem gather_wholesale_append_witness :
    (gatherOutput [⟨false, 2⟩] [⟨true, 1⟩]).filter (fun l => !l.err) = [⟨false, 2⟩] ∧
    (gatherOutput [⟨false, 2⟩] [⟨true, 1⟩]).filter (fun l => l.err) = [⟨true, 1⟩] ∧
    List.Pairwise (fun a b => a.err = true → b.err = true)
      (gatherOutput [⟨false, 2⟩] [⟨true, 1⟩]) :=
  gather_wholesale_append [⟨false, 2⟩] [⟨true, 1⟩] (by decide) (by decide)

/-! ### The blocking `readlines` poll (claim C9) -/

/-- Python semantics of `file.readlines()` on a subprocess pipe: the call
returns the buffered lines only once the stream has reached end-of-file
(the child closed the pipe, normally by exiting); until then the call does
not return — it blocks.  The blocked case is modelled as `none`. -/
def readlinesPoll (eofReached : Bool) (buffered : List OutLine) : Option (List OutLine) :=
  if eofReached then some buffered else none

/-- The output-gathering step of `process_command` while a process exists
(lines 290-292): both pipes are drained with `readlines()`, so the step
only completes when both pipes have reached end-of-file. -/
def pollGather (stdoutEof stderrEof : Bool) (stdoutBuf stderrBuf : List OutLine) :
    Option (List OutLine) :=
  match readlinesPoll stdoutEof stdoutBuf, readlinesPoll stderrEof stderrBuf with
  | some o, some e => some (gatherOutput o e)
  | _, _ => none

/-- Claim C9 names a code bug: polling a running child whose pipes are
still open never returns — `readlines()` blocks until end-of-file — even
when output is already buffered, instead of returning immediately with the
available output (possibly empty) as the method's own docstring promises
("in a non-blocking manner"). -/
theorem poll_blocks_without_eof :
    pollGather false false [] [] = none ∧
    pollGather false false [⟨false, 1⟩] [] = none ∧
    pollGather true true [⟨false, 1⟩] [] = some [⟨false, 1⟩] := by
  decide

/-! ### End-of-run bookkeeping and the errexit break (lines 558-584) -/

/-- The state touched by the end-of-run block of `WatchLess.run`: the
persistent scroll state, the displayed pad `self.pad`, the scratch pad
`newpad`, and the per-run accumulation counters. -/
structure LoopState where
  wl : WL
  pad : Canvas
  newpad : Canvas
  new_w : Nat
  new_h : Nat
  cur_l : Nat
  first_run : Bool
deriving DecidableEq

/-- Lines 558-584 of `WatchLess.run`, entered when `rcode is not None`:
on a non-zero return code, optionally beep (a write to standard output,
not modelled as state) and, if `errexit`, break out of the loop; otherwise
swap the pads, record the new content size, recompute the sizes, mark the
display dirty and reset the scratch state.  The returned flag is whether
the loop continues (`false` is the `break`). -/
def finishRun (errexit : Bool) (screenh screenw : Int) (rcode : Int)
    (ls : LoopState) : LoopState × Bool :=
  if rcode ≠ 0 ∧ errexit then (ls, false)
  else
    ({ wl := { calculate_sizes screenh screenw
          { ls.wl with content_width := (ls.new_w : Int),
                       content_height := (ls.new_h : Int) } with dirty := true }
       pad := ls.newpad
       newpad := []
       new_w := 0
       new_h := 0
       cur_l := 0
       first_run := false }, true)

/-- Claim C10: when the command exits non-zero and exit-on-error is set,
the loop breaks before the pad swap, so the displayed pad and the recorded
content dimensions — indeed the whole state — remain exactly those of the
last previously completed run. -/
theorem errexit_preserves_display (screenh screenw : Int) (rcode : Int)
    (ls : LoopState) (hrc : rcode ≠ 0) :
    finishRun true screenh screenw rcode ls = (ls, false) ∧
    (finishRun true screenh screenw rcode ls).1.pad = ls.pad ∧
    (finishRun true screenh screenw rcode ls).1.wl.content_width
      = ls.wl.content_width ∧
    (finishRun true screenh screenw rcode ls).1.wl.content_height
      = ls.wl.content_height := by
  have h : finishRun true screenh screenw rcode ls = (ls, false) := by
    unfold finishRun
    rw [if_pos ⟨hrc, rfl⟩]
  exact ⟨h, by rw [h], by rw [h], by rw [h]⟩

/-- A concrete loop state, as after one completed run. -/
def demoLS : LoopState :=
  { wl := demoWL, pad := [[104]], newpad := [[33]], new_w := 1, new_h := 1,
    cur_l := 1, first_run := false }

/-- Witness for C10: a failing run (`rcode = 2`) under exit-on-error leaves
`demoLS` untouched and stops the loop. -/
theorem errexit_preserves_display_witness :
    finishRun true 24 80 2 demoLS = (demoLS, false) ∧
    (finishRun true 24 80 2 demoLS).1.pad = demoLS.pad ∧
    (finishRun true 24 80 2 demoLS).1.wl.content_width = demoLS.wl.content_width ∧
    (finishRun true 24 80 2 demoLS).1.wl.content_height = demoLS.wl.content_height :=
  errexit_preserves_display 24 80 2 demoLS (by decide)

/-! ### Process exit codes (claim C8) -/

/-- How the main loop of `WatchLess.run` can end: the user's interrupt
(KeyboardInterrupt, caught at lines 601-603) or the errexit break at
line 566. -/
inductive RunEnd where
  | interrupt
  | errexitBreak
deriving DecidableEq

/-- `WatchLess.run` returns no value on either termination path: the break
falls out of the while loop and the method returns; KeyboardInterrupt is
caught and ignored. -/
def runReturn : RunEnd → Unit := fun _ => ()

/-- The script's process exit code (lines 606-608): `from_arguments`
raises `SystemExit(1)` when no command was given (lines 233-237);
otherwise `curses.wrapper(wl.run)` returns and the script falls off the
end, so the interpreter exits with status 0 — no path after `run` sets a
different status. -/
def watchlessMain (command : List String) (ending : RunEnd) : Nat :=
  if command.isEmpty then 1
  else
    match runReturn ending with
    | () => 0

/-- Counterexample to claim C8: with exit-on-error set and a non-zero
return code the loop does break, but the process exit code is 0, not 1 —
`run` just returns and the script ends without setting an exit status. -/
theorem errexit_exit_code_zero :
    (finishRun true 24 80 2 demoLS).2 = false ∧
    watchlessMain ["ls"] RunEnd.errexitBreak = 0 ∧
    ¬(watchlessMain ["ls"] RunEnd.errexitBreak = 1) := by
  decide

/-- Claim C8 as amended: the exit code is 1 when no command was given and
0 on a graceful interrupt, but also 0 — not 1 — when exit-on-error stops
the loop after a non-zero return code (the break does terminate the loop,
as `finishRun` shows, but no non-zero exit status is produced). -/
theorem exit_codes (ending : RunEnd) (cmd : List String) (hcmd : cmd ≠ [])
    (screenh screenw rcode : Int) (ls : LoopState) (hrc : rcode ≠ 0) :
    watchlessMain [] ending = 1 ∧
    watchlessMain cmd ending = 0 ∧
    (finishRun true screenh screenw rcode ls).2 = false := by
  refine ⟨rfl, ?_, ?_⟩
  · cases cmd with
    | nil => exact absurd rfl hcmd
    | cons a rest => rfl
  · unfold finishRun
    rw [if_pos ⟨hrc, rfl⟩]

/-- Witness for the amended C8: concrete endings and a concrete failing
run. -/
theorem exit_codes_witness :
    watchlessMain [] RunEnd.errexitBreak = 1 ∧
    watchlessMain ["ls"] RunEnd.errexitBreak = 0 ∧
    (finishRun true 24 80 2 demoLS).2 = false :=
  exit_codes RunEnd.errexitBreak ["ls"] (by decide) 24 80 2 demoLS (by decide)

end Watchless
